import Mathlib

/-!
Verification development for the `r-http` repository, a from-scratch
HTTP/1.1 message layer in Go.  Byte streams are embedded as `List Char`
(every byte of interest is ASCII), Go maps as insertion-ordered
association lists, and the two request parsers, the two response
serializers and the radix-tree router are translated function by
function from the Go source.  `bufio` line reading is modelled through
the newline decomposition of the stream: a stream `s` is the
intercalation with the newline character of `splitOnChar '\n' s`, every segment except
the last is a complete line, and the last segment is the trailing data
that no newline terminates.
-/

namespace RHttp

instance {ε α : Type} [DecidableEq ε] [DecidableEq α] :
    DecidableEq (Except ε α) := fun a b =>
  match a, b with
  | .ok x, .ok y =>
    if h : x = y then .isTrue (by rw [h]) else .isFalse (by simpa using h)
  | .error x, .error y =>
    if h : x = y then .isTrue (by rw [h]) else .isFalse (by simpa using h)
  | .ok _, .error _ => .isFalse (by simp)
  | .error _, .ok _ => .isFalse (by simp)

/-- ASCII fragment of Go `unicode.IsSpace`, the character class used by
`strings.TrimSpace`.  The streams in question are ASCII. -/
def isSpace (c : Char) : Bool :=
  c = ' ' || c = '\t' || c = '\n' || c = '\r' || c = '\x0B' || c = '\x0C'

/-- Go `strings.TrimSpace`: drop leading and trailing whitespace.
Right trim first (`List.rdropWhile`), then left trim; the order does not
matter for the value. -/
def trimSpace (l : List Char) : List Char :=
  (List.rdropWhile isSpace l).dropWhile isSpace

/-- Go `strings.Split(s, sep)` for a one-character separator: the
segments of `l` between occurrences of `sep`.  Always returns at least
one (possibly empty) segment, like its Go counterpart. -/
def splitOnChar (sep : Char) : List Char → List (List Char)
  | [] => [[]]
  | c :: t =>
    let r := splitOnChar sep t
    if c = sep then [] :: r else (c :: r.headD []) :: r.tail

/-- Go `strings.Cut(s, ":")` (also `strings.SplitN(s, ":", 2)`): split
at the first colon, `none` when there is no colon. -/
def cutColon : List Char → Option (List Char × List Char)
  | [] => none
  | c :: t =>
    if c = ':' then some ([], t)
    else
      match cutColon t with
      | some (k, v) => some (c :: k, v)
      | none => none

/-- Go `strconv.Atoi` / `strconv.ParseInt(s, 10, 64)`: an optional sign
followed by at least one digit, nothing else.  (The 64-bit overflow
bound is not modelled; no claim depends on it.) -/
def goAtoi (s : List Char) : Option Int :=
  let digitsVal : List Char → Nat :=
    fun ds => ds.foldl (fun a c => a * 10 + (c.toNat - '0'.toNat)) 0
  match s with
  | [] => none
  | '+' :: t => if t ≠ [] ∧ t.all Char.isDigit then some (digitsVal t) else none
  | '-' :: t => if t ≠ [] ∧ t.all Char.isDigit then some (-(digitsVal t : Int)) else none
  | s => if s.all Char.isDigit then some (digitsVal s) else none

/-- Go map update `m[k] = v` on an insertion-ordered association list:
the last write wins, the key keeps its first-insertion position. -/
def aupd {β : Type} (m : List (List Char × β)) (k : List Char) (v : β) :
    List (List Char × β) :=
  match m with
  | [] => [(k, v)]
  | (k0, v0) :: t => if k0 = k then (k0, v) :: t else (k0, v0) :: aupd t k v

/-- Go map lookup `m[k]` (the `, ok` form): `none` when absent. -/
def aget {β : Type} (m : List (List Char × β)) (k : List Char) : Option β :=
  match m with
  | [] => none
  | (k0, v0) :: t => if k0 = k then some v0 else aget t k

/-- The keys of an association list, in insertion order. -/
def akeys {β : Type} (m : List (List Char × β)) : List (List Char) :=
  m.map Prod.fst

/-- The raw characters a list of newline-separated segments stands for:
inverse of splitting on the newline character. -/
def joinLines (segs : List (List Char)) : List Char :=
  List.intercalate ['\n'] segs

/-- The carriage-return stripping `bufio.Reader.ReadLine` applies after
removing the newline terminator: at most one trailing CR is dropped. -/
def stripCR (l : List Char) : List Char :=
  match l.getLast? with
  | some '\r' => l.dropLast
  | _ => l

/-! ## The buffered parser, `internal/request/request.go` -/

namespace Internal

/-- The `ParseError` type of `internal/request`, with the developer message
abstracted to its classification; every construction in the source uses
status code 400. -/
inductive ParseErr where
  | readRequestLine
  | malformedRequestLine
  | readHeaderLine
  | invalidContentLength
  | truncatedBody
  deriving DecidableEq, Repr

/-- The suggested client-facing status code carried by a `ParseError`:
the source writes `StatusCode: 400` at every construction site. -/
def ParseErr.statusCode : ParseErr → Int := fun _ => 400

/-- Outcome of running a Go function that can return a value, return an
error, or panic. -/
inductive GoResult (α : Type) where
  | ok (a : α)
  | fail (e : ParseErr)
  | panic
  deriving DecidableEq

/-- The `Request` struct of `internal/request`.  `Body []byte` is
embedded as `Option (List Char)`: `none` is Go `nil`, `some bs` a
non-nil slice. -/
structure Request where
  Method : List Char
  Target : List Char
  Version : List Char
  Headers : List (List Char × List Char)
  Body : Option (List Char)
  deriving DecidableEq

/-- The function `parseRequestLine`: `reader.ReadString('\n')` succeeds only when the
stream still holds a newline, i.e. when at least two segments remain; the
line read is the first segment plus its newline terminator.  The line is
whitespace-trimmed and split on single spaces; any token count other
than three is a malformed-request-line failure. -/
def parseRequestLine (segs : List (List Char)) :
    Except ParseErr ((List Char × List Char × List Char) × List (List Char)) :=
  match segs with
  | [] => .error .readRequestLine
  | [_] => .error .readRequestLine
  | seg :: rest =>
    match splitOnChar ' ' (trimSpace (seg ++ ['\n'])) with
    | [m, t, v] => .ok ((m, t, v), rest)
    | _ => .error .malformedRequestLine

/-- The header loop of `parseHeaders`: read a line (failing when no
newline terminates the remaining data), trim it, stop at an empty line,
skip a line without a colon, otherwise record the trimmed name/value
pair (a Go map assignment, so the last occurrence of a name wins). -/
def parseHeadersCore (segs : List (List Char))
    (acc : List (List Char × List Char)) :
    Except ParseErr ((List (List Char × List Char)) × List (List Char)) :=
  match segs with
  | [] => .error .readHeaderLine
  | [_] => .error .readHeaderLine
  | seg :: rest =>
    let hl := trimSpace (seg ++ ['\n'])
    if hl = [] then .ok (acc, rest)
    else
      match cutColon hl with
      | none => parseHeadersCore rest acc
      | some (k, v) => parseHeadersCore rest (aupd acc (trimSpace k) (trimSpace v))

/-- The function `parseBody`: no `Content-Length` header means a `nil` body; a
non-integer value is an invalid-Content-Length failure; zero means a
`nil` body; the source then runs `make([]byte, contentLength)`, which
panics for a negative length; `io.ReadFull` fails when fewer bytes
remain than requested and otherwise yields exactly that many bytes. -/
def parseBody (rest : List Char) (hs : List (List Char × List Char)) :
    GoResult (Option (List Char)) :=
  match aget hs "Content-Length".toList with
  | none => .ok none
  | some cl =>
    match goAtoi cl with
    | none => .fail .invalidContentLength
    | some n =>
      if n = 0 then .ok none
      else if n < 0 then .panic
      else if (rest.length : Int) < n then .fail .truncatedBody
      else .ok (some (rest.take n.toNat))

/-- The function `Parse` of `internal/request`: request line, then headers, then
body, each phase aborting the whole parse on failure. -/
def Parse (s : List Char) : GoResult Request :=
  match parseRequestLine (splitOnChar '\n' s) with
  | .error e => .fail e
  | .ok ((m, t, v), segs1) =>
    match parseHeadersCore segs1 [] with
    | .error e => .fail e
    | .ok (hs, segs2) =>
      match parseBody (joinLines segs2) hs with
      | .panic => .panic
      | .fail e => .fail e
      | .ok b => .ok ⟨m, t, v, hs, b⟩

end Internal

/-! ## The streaming parser, package `rhttp/request` -/

namespace Streaming

/-- Failure classification of the streaming parser: `ReadLine` errors
are returned raw, a bad token count is `errors.New("malformed request
line")`. -/
inductive Err where
  | requestLineRead
  | malformedRequestLine
  | headerRead
  deriving DecidableEq, Repr

/-- The `Request` struct of `rhttp/request`.  The `io.ReadCloser` body
is embedded as the byte sequence draining it would yield; `PathParams`
is the router-filled map, empty at parse time. -/
structure Request where
  Method : List Char
  Target : List Char
  Version : List Char
  Headers : List (List Char × List Char)
  Body : List Char
  PathParams : List (List Char × List Char)
  deriving DecidableEq

/-- Model of `bufio.Reader.ReadLine` on the remaining segments: on an empty
stream it errors; a complete line (at least two segments remain) is the
first segment with one trailing CR stripped; data that no newline
terminates is returned as-is with a nil error, leaving an empty
stream. -/
def readLineSegs : List (List Char) → Option (List Char × List (List Char))
  | [] => none
  | [only] => if only = [] then none else some (only, [[]])
  | seg :: rest => some (stripCR seg, rest)

/-- The function `parseRequestLine` of `rhttp/request`: one `ReadLine`, split on
single spaces with no trimming, exactly three tokens required. -/
def parseRequestLine (segs : List (List Char)) :
    Except Err ((List Char × List Char × List Char) × List (List Char)) :=
  match readLineSegs segs with
  | none => .error .requestLineRead
  | some (line, rest) =>
    match splitOnChar ' ' line with
    | [m, t, v] => .ok ((m, t, v), rest)
    | _ => .error .malformedRequestLine

/-- The header loop of `parseHeaders` in `rhttp/request`: stop at a
line of length zero (before any trimming), skip a line that
`strings.SplitN(line, ":", 2)` leaves in one piece, otherwise record
the trimmed pair.  When only unterminated data remains, the loop either
errors at once (no data) or consumes the data and then errors on the
next `ReadLine`; the net result is a header-read failure either way. -/
def parseHeadersCore (segs : List (List Char))
    (acc : List (List Char × List Char)) :
    Except Err ((List (List Char × List Char)) × List (List Char)) :=
  match segs with
  | [] => .error .headerRead
  | [_] => .error .headerRead
  | seg :: rest =>
    let line := stripCR seg
    if line = [] then .ok (acc, rest)
    else
      match cutColon line with
      | none => parseHeadersCore rest acc
      | some (k, v) => parseHeadersCore rest (aupd acc (trimSpace k) (trimSpace v))

/-- The function `Parse` of `rhttp/request`: after request line and headers, look up
`Content-Length` with the defaulting Go map index (absent reads as the
empty string); when `strconv.ParseInt` succeeds with a positive value
the body is `io.LimitReader(reader, n)` — draining it yields at most
`n` of the remaining bytes, with no error on a short stream — and in
every other case the body is empty.  The parse itself always succeeds
once the headers are read. -/
def Parse (s : List Char) : Except Err Request :=
  match parseRequestLine (splitOnChar '\n' s) with
  | .error e => .error e
  | .ok ((m, t, v), segs1) =>
    match parseHeadersCore segs1 [] with
    | .error e => .error e
    | .ok (hs, segs2) =>
      let clStr := (aget hs "Content-Length".toList).getD []
      let body :=
        match goAtoi clStr with
        | some n => if 0 < n then (joinLines segs2).take n.toNat else []
        | none => []
      .ok ⟨m, t, v, hs, body, []⟩

end Streaming

/-! ## The router, package `rhttp/router` -/

namespace Routing

/-- Handlers are opaque function values to the router; they are
embedded as bare naturals. -/
abbrev Handler := Nat

/-- A radix-tree node: the segment text of this node, its children in
creation order, the per-method handler map, and the parameter flag.
(The unused `path` field of the Go struct is omitted.) -/
inductive Node where
  | mk (part : List Char) (children : List Node)
       (handlers : List (List Char × Handler)) (isParam : Bool)

def Node.part : Node → List Char
  | .mk p _ _ _ => p

def Node.children : Node → List Node
  | .mk _ c _ _ => c

def Node.handlers : Node → List (List Char × Handler)
  | .mk _ _ h _ => h

def Node.isParam : Node → Bool
  | .mk _ _ _ b => b

/-- The test `len(part) > 0 && part[0] == ':'`, the parameter test used by
`findOrCreateChild`. -/
def isParamPart : List Char → Bool
  | [] => false
  | c :: _ => c = ':'

/-- The chain of fresh nodes `findOrCreateChild` builds when a whole
suffix of the path is new: each segment becomes one child, and the
terminal node receives the handler for the method. -/
def chain (p : List Char) (parts : List (List Char)) (method : List Char)
    (h : Handler) : Node :=
  match parts with
  | [] => .mk p [] [(method, h)] (isParamPart p)
  | q :: rest => .mk p [chain q rest method h] [] (isParamPart p)

/-- Replace the first child whose `part` matches, leaving the rest
untouched: the search order of `findOrCreateChild`. -/
def updateFirstChild (cs : List Node) (p : List Char) (f : Node → Node) :
    List Node :=
  match cs with
  | [] => []
  | c :: cs' => if c.part = p then f c :: cs' else c :: updateFirstChild cs' p f

/-- The method `node.insert`, descending with `findOrCreateChild`: an existing
literal-equal child is reused, a missing one is appended; the terminal
node gets `handlers[method] = handler`. -/
def insertAt (n : Node) (parts : List (List Char)) (method : List Char)
    (h : Handler) : Node :=
  match parts with
  | [] => .mk n.part n.children (aupd n.handlers method h) n.isParam
  | p :: rest =>
    if n.children.any (fun c => c.part = p) then
      .mk n.part (updateFirstChild n.children p (fun c => insertAt c rest method h))
          n.handlers n.isParam
    else
      .mk n.part (n.children ++ [chain p rest method h]) n.handlers n.isParam

/-- The loop bound of `insert`: `strings.Split(path, "/")[1:]`, with
the loop breaking on an empty final segment (so `/a/` and `/a` insert
identically). -/
def effParts (ps : List (List Char)) : List (List Char) :=
  match ps.getLast? with
  | some [] => ps.dropLast
  | _ => ps

/-- One router: the per-method tree map. -/
def Router := List (List Char × Node)

def emptyRouter : Router := []

/-- The method `Router.AddRoute`: create the method tree on first use (root
segment `"/"`), then insert. -/
def AddRoute (r : Router) (method path : List Char) (h : Handler) : Router :=
  let root := (aget r method).getD (.mk ['/'] [] [] false)
  aupd r method (insertAt root (effParts ((splitOnChar '/' path).tail)) method h)

/-- The child scan of `node.search`: for each child in creation order,
a parameter child matches first (capturing the sigil-stripped name
against the raw segment text), then a literal-equal child; the first
hit wins. -/
def findChild (cs : List Node) (part : List Char)
    (params : List (List Char × List Char)) :
    Option (Node × List (List Char × List Char)) :=
  match cs with
  | [] => none
  | c :: cs' =>
    if c.isParam then some (c, aupd params (c.part.drop 1) part)
    else if c.part = part then some (c, params)
    else findChild cs' part params

/-- The descent loop of `node.search`: empty segments are skipped, a
level with no matching child fails. -/
def searchCore (n : Node) (parts : List (List Char))
    (params : List (List Char × List Char)) :
    Option (Node × List (List Char × List Char)) :=
  match parts with
  | [] => some (n, params)
  | part :: rest =>
    if part = [] then searchCore n rest params
    else
      match findChild n.children part params with
      | some (c, ps) => searchCore c rest ps
      | none => none

/-- Go `strings.Trim(path, "/")`: strip leading and trailing slashes. -/
def trimSlash (l : List Char) : List Char :=
  (List.rdropWhile (fun c => c = '/') (l.dropWhile (fun c => c = '/')))

/-- The method `node.search`: split the trimmed target on `/`, descend, and if the
final node has any handler return one (within one method tree the
handler map holds at most the one entry for that tree, so the Go
map-range pick is that entry). -/
def search (n : Node) (path : List Char) :
    Option (Handler × List (List Char × List Char)) :=
  match searchCore n (splitOnChar '/' (trimSlash path)) [] with
  | none => none
  | some (m, params) =>
    match m.handlers with
    | [] => none
    | (_, h) :: _ => some (h, params)

/-- The method `Router.FindHandler`: look up the method tree and search it; a
missing tree is a not-found. -/
def FindHandler (r : Router) (method path : List Char) :
    Option (Handler × List (List Char × List Char)) :=
  match aget r method with
  | none => none
  | some root => search root path

end Routing

/-! ## The byte-body response, `response/response.go` (part_004) -/

namespace ByteResp

/-- The fixed code-to-text table of the byte-body response package. -/
def statusTextTable : List (Int × List Char) :=
  [(200, "OK".toList), (201, "Created".toList), (204, "No Content".toList),
   (400, "Bad Request".toList), (404, "Not Found".toList),
   (500, "Internal Server Error".toList)]

/-- Go map lookup on the status-text table (the plain index form:
absent reads as the empty string, handled by callers). -/
def tget (m : List (Int × List Char)) (k : Int) : Option (List Char) :=
  match m with
  | [] => none
  | (k0, v0) :: t => if k0 = k then some v0 else tget t k

structure Response where
  StatusCode : Int
  StatusText : List Char
  Headers : List (List Char × List Char)
  Body : List Char
  deriving DecidableEq

/-- Model of `strconv.Itoa` for the non-negative lengths the source feeds it. -/
def goItoaNat (n : Nat) : List Char := Nat.toDigits 10 n

/-- The `fmt` rendering of an `int` via the `%d` verb. -/
def goItoaInt (i : Int) : List Char :=
  if i < 0 then '-' :: Nat.toDigits 10 i.natAbs else Nat.toDigits 10 i.toNat

/-- The constructor `New` of the byte-body package: table lookup with the
`"Status Unknown"` fallback for a missing (empty) text, then the two
default headers `Content-Length` and `Content-Type`, in that insertion
order. -/
def New (code : Int) (body : List Char) : Response :=
  let st0 := (tget statusTextTable code).getD []
  let st := if st0 = [] then "Status Unknown".toList else st0
  { StatusCode := code
    StatusText := st
    Headers := aupd (aupd [] "Content-Length".toList (goItoaNat body.length))
                    "Content-Type".toList "text/plain".toList
    Body := body }

/-- The status line `fmt.Fprintf(w, "HTTP/1.1 %d %s\r\n", ...)`. -/
def statusLine (r : Response) : List Char :=
  "HTTP/1.1 ".toList ++ goItoaInt r.StatusCode ++ ' ' :: r.StatusText
    ++ "\r\n".toList

/-- One header line `fmt.Fprintf(w, "%s: %s\r\n", k, v)`. -/
def headerLine (hs : List (List Char × List Char)) (k : List Char) : List Char :=
  k ++ ':' :: ' ' :: ((aget hs k).getD []) ++ "\r\n".toList

/-- The method `Response.Write`, parameterised by the order in which the Go
`range` over the header map visits the keys: that order is unspecified
by the language, so it is an explicit argument here; a faithful run is
any call whose `order` enumerates the keys of the map exactly once. -/
def writeWithOrder (r : Response) (order : List (List Char)) : List Char :=
  statusLine r ++ (order.map (headerLine r.Headers)).flatten
    ++ "\r\n".toList ++ r.Body

end ByteResp

/-! ## The streaming-body response, package `rhttp/response` (part_003) -/

namespace StreamResp

/-- The fixed code-to-text table of the streaming response package
(five entries, no 204). -/
def statusTextTable : List (Int × List Char) :=
  [(200, "OK".toList), (201, "Created".toList), (400, "Bad Request".toList),
   (404, "Not Found".toList), (500, "Internal Server Error".toList)]

structure Response where
  StatusCode : Int
  StatusText : List Char
  Headers : List (List Char × List Char)
  Body : List Char
  deriving DecidableEq

/-- The constructor `New` of the streaming package: a bare table index with no
fallback — a code absent from the table yields the empty string — and
an empty header map.  The `io.Reader` body is embedded as the bytes it
yields. -/
def New (code : Int) (body : List Char) : Response :=
  { StatusCode := code
    StatusText := (ByteResp.tget statusTextTable code).getD []
    Headers := []
    Body := body }

end StreamResp

/-! ## Claim theorems -/

open Routing in
/-- Claim C1, counterexample: registering `(GET, /users/:id, h2)` first
and `(GET, /users/me, h1)` second, resolving `(GET, /users/me)` returns
`h2` with the capture `id = me`, not `h1`: the child scan of
`node.search` takes a parameter child the moment it is reached, so the
literal is not preferred when the parameter route was registered
first. -/
theorem router_param_beats_literal_counterexample :
    FindHandler
      (AddRoute (AddRoute emptyRouter "GET".toList "/users/:id".toList 2)
        "GET".toList "/users/me".toList 1)
      "GET".toList "/users/me".toList
      = some (2, [("id".toList, "me".toList)])
    ∧ (FindHandler
        (AddRoute (AddRoute emptyRouter "GET".toList "/users/:id".toList 2)
          "GET".toList "/users/me".toList 1)
        "GET".toList "/users/me".toList).map Prod.fst ≠ some 1 := by
  decide

open Routing in
/-- Claim C1, amended: route resolution scans the children of a level
in registration order and takes the first child that is a parameter
node or matches the segment literally, so the outcome depends on
registration order: registering `(GET, /users/me, h1)` before
`(GET, /users/:id, h2)`, resolving `(GET, /users/me)` returns `h1`
with no captures; registering in the opposite order returns `h2` with
the capture `id = me`. -/
theorem router_registration_order_decides :
    FindHandler
      (AddRoute (AddRoute emptyRouter "GET".toList "/users/me".toList 1)
        "GET".toList "/users/:id".toList 2)
      "GET".toList "/users/me".toList = some (1, [])
    ∧ FindHandler
        (AddRoute (AddRoute emptyRouter "GET".toList "/users/:id".toList 2)
          "GET".toList "/users/me".toList 1)
        "GET".toList "/users/me".toList
        = some (2, [("id".toList, "me".toList)]) := by
  decide

open Routing in
/-- Claim C2: after registering `(GET, /users/:id, h)` in an empty
router, resolving `(GET, /users/42)` returns `h` with the parameter
mapping `id = 42` (sigil stripped, raw segment text), while
`(GET, /users/42/extra)` and `(POST, /users/42)` both resolve to the
not-found signal. -/
theorem router_param_roundtrip (h : Handler) :
    FindHandler (AddRoute emptyRouter "GET".toList "/users/:id".toList h)
      "GET".toList "/users/42".toList = some (h, [("id".toList, "42".toList)])
    ∧ FindHandler (AddRoute emptyRouter "GET".toList "/users/:id".toList h)
        "GET".toList "/users/42/extra".toList = none
    ∧ FindHandler (AddRoute emptyRouter "GET".toList "/users/:id".toList h)
        "POST".toList "/users/42".toList = none :=
  ⟨rfl, rfl, rfl⟩

/-- Claim C3, failing input: on `Content-Length: -1` the buffered
parser of `internal/request` reaches `make([]byte, -1)`, a runtime
panic, so the parse neither returns a `Request` nor a typed failure —
the parser is not panic-free. -/
theorem parse_negative_content_length_panics :
    Internal.Parse ("POST / HTTP/1.1\r\nContent-Length: -1\r\n\r\n".toList)
      = .panic := by
  decide

/-- Claim C4, counterexample: on `Content-Length: 0` the buffered
parser returns the `nil` body (`none`), the very same value it returns
when the `Content-Length` header is absent — the zero-length body is
absent-style, not an explicitly present empty sequence. -/
theorem content_length_zero_nil_body_counterexample :
    Internal.Parse ("POST /s HTTP/1.1\r\nContent-Length: 0\r\n\r\n".toList)
      = .ok ⟨"POST".toList, "/s".toList, "HTTP/1.1".toList,
            [("Content-Length".toList, "0".toList)], none⟩
    ∧ Internal.Parse ("POST /s HTTP/1.1\r\n\r\n".toList)
        = .ok ⟨"POST".toList, "/s".toList, "HTTP/1.1".toList, [], none⟩ := by
  decide

/-- Claim C5, counterexample: the response serializer writes header
lines in the order the Go `range` happens to visit the header map, and
that order is unspecified: for the response `New 200 "ok"` the two
key enumerations (both legitimate `range` orders over the same map)
produce different byte sequences, so serialization is not a function of
the `Response` value alone and does not follow insertion order. -/
theorem serialize_order_dependent_counterexample :
    (["Content-Length".toList, "Content-Type".toList].Perm
        (akeys (ByteResp.New 200 "ok".toList).Headers)
      ∧ ["Content-Type".toList, "Content-Length".toList].Perm
        (akeys (ByteResp.New 200 "ok".toList).Headers))
    ∧ ByteResp.writeWithOrder (ByteResp.New 200 "ok".toList)
        ["Content-Length".toList, "Content-Type".toList]
      ≠ ByteResp.writeWithOrder (ByteResp.New 200 "ok".toList)
        ["Content-Type".toList, "Content-Length".toList] := by
  decide

/-- Claim C6, counterexample: the streaming parser of `rhttp/request`
does not fail on a truncated body; with `Content-Length: 5` and only
two bytes available it succeeds, returning a `Request` whose body
reader yields exactly those two bytes. -/
theorem streaming_truncated_body_counterexample :
    Streaming.Parse ("POST / HTTP/1.1\r\nContent-Length: 5\r\n\r\nab".toList)
      = .ok ⟨"POST".toList, "/".toList, "HTTP/1.1".toList,
            [("Content-Length".toList, "5".toList)], "ab".toList, []⟩
    ∧ ("ab".toList).length < 5 := by
  decide

/-- Claim C7, counterexample: the request line `GET<SP><SP>HTTP/1.1`
splits into exactly three tokens whose middle token is empty, so the
buffered parser accepts it and returns a `Request` with an empty
target. -/
theorem empty_target_parse_counterexample :
    Internal.Parse ("GET  HTTP/1.1\r\n\r\n".toList)
      = .ok ⟨"GET".toList, [], "HTTP/1.1".toList, [], none⟩ := by
  decide

/-- Claim C9, counterexample: the streaming response package performs a
bare table index with no fallback, so an unknown status code yields an
empty status text; and the byte-body package falls back to the text
`Status Unknown`, not `Unknown Status`. -/
theorem status_text_empty_counterexample :
    (StreamResp.New 418 []).StatusText = []
    ∧ (ByteResp.New 418 []).StatusText = "Status Unknown".toList := by
  decide

/-- Claim C10, counterexample: on the same stream with the non-numeric
`Content-Length: not-a-number`, the buffered parser fails the parse
with an invalid-Content-Length error while the streaming parser
succeeds with an empty body — the two parsers do not resolve the
policy identically. -/
theorem content_length_policy_mismatch_counterexample :
    Internal.Parse
        ("POST /submit HTTP/1.1\r\nContent-Length: not-a-number\r\n\r\nsome body data".toList)
      = .fail .invalidContentLength
    ∧ Streaming.Parse
        ("POST /submit HTTP/1.1\r\nContent-Length: not-a-number\r\n\r\nsome body data".toList)
      = .ok ⟨"POST".toList, "/submit".toList, "HTTP/1.1".toList,
            [("Content-Length".toList, "not-a-number".toList)], [], []⟩ := by
  decide

/-- Claim C4, amended theorem: whenever the buffered parser gets past
the request line and the headers, finds a `Content-Length` value that
parses as an integer `n ≥ 0`, and at least `n` bytes remain, the parse
succeeds; for `n > 0` the body is exactly the first `n` remaining bytes
and for `n = 0` it is the `nil` body, the same value as for an absent
header. -/
theorem parse_body_exact_bytes (s m t v : List Char)
    (segs1 segs2 : List (List Char)) (hs : List (List Char × List Char))
    (cl : List Char) (n : Int)
    (h1 : Internal.parseRequestLine (splitOnChar '\n' s) = .ok ((m, t, v), segs1))
    (h2 : Internal.parseHeadersCore segs1 [] = .ok (hs, segs2))
    (h3 : aget hs "Content-Length".toList = some cl)
    (h4 : goAtoi cl = some n)
    (h5 : 0 ≤ n)
    (h6 : n ≤ ((joinLines segs2).length : Int)) :
    Internal.Parse s
      = .ok ⟨m, t, v, hs,
             if n = 0 then none else some ((joinLines segs2).take n.toNat)⟩ := by
  simp only [Internal.Parse, h1, h2, Internal.parseBody, h3, h4]
  by_cases hn0 : n = 0
  · simp [hn0]
  · rw [if_neg hn0, if_neg (by omega : ¬ n < 0), if_neg (by omega : ¬ ((joinLines segs2).length : Int) < n)]
    simp [hn0]

/-- Witness for `parse_body_exact_bytes` at a concrete two-byte body. -/
theorem parse_body_exact_bytes_witness :
    Internal.Parse ("POST / HTTP/1.1\r\nContent-Length: 2\r\n\r\nhi".toList)
      = .ok ⟨"POST".toList, "/".toList, "HTTP/1.1".toList,
            [("Content-Length".toList, "2".toList)], some ("hi".toList)⟩ := by
  have := parse_body_exact_bytes
    ("POST / HTTP/1.1\r\nContent-Length: 2\r\n\r\nhi".toList)
    ("POST".toList) ("/".toList) ("HTTP/1.1".toList)
    ["Content-Length: 2\r".toList, "\r".toList, "hi".toList]
    ["hi".toList]
    [("Content-Length".toList, "2".toList)]
    ("2".toList) 2
    (by decide) (by decide) (by decide) (by decide) (by decide) (by decide)
  simpa using this

/-- Claim C6, amended theorem: whenever the buffered parser gets past
the request line and the headers, finds a `Content-Length` value that
parses as an integer `n > 0`, and fewer than `n` bytes remain, the
whole parse fails with the truncated-body classification (carrying
status code 400); no `Request` with a shorter body is returned. -/
theorem buffered_truncated_body_fails (s m t v : List Char)
    (segs1 segs2 : List (List Char)) (hs : List (List Char × List Char))
    (cl : List Char) (n : Int)
    (h1 : Internal.parseRequestLine (splitOnChar '\n' s) = .ok ((m, t, v), segs1))
    (h2 : Internal.parseHeadersCore segs1 [] = .ok (hs, segs2))
    (h3 : aget hs "Content-Length".toList = some cl)
    (h4 : goAtoi cl = some n)
    (h5 : 0 < n)
    (h6 : ((joinLines segs2).length : Int) < n) :
    Internal.Parse s = .fail .truncatedBody
    ∧ Internal.ParseErr.truncatedBody.statusCode = 400 := by
  refine ⟨?_, rfl⟩
  simp only [Internal.Parse, h1, h2, Internal.parseBody, h3, h4]
  rw [if_neg (by omega : ¬ n = 0), if_neg (by omega : ¬ n < 0),
      if_pos h6]

/-- Witness for `buffered_truncated_body_fails`: five announced bytes,
two available. -/
theorem buffered_truncated_body_fails_witness :
    Internal.Parse ("POST / HTTP/1.1\r\nContent-Length: 5\r\n\r\nab".toList)
      = .fail .truncatedBody := by
  have := buffered_truncated_body_fails
    ("POST / HTTP/1.1\r\nContent-Length: 5\r\n\r\nab".toList)
    ("POST".toList) ("/".toList) ("HTTP/1.1".toList)
    ["Content-Length: 5\r".toList, "\r".toList, "ab".toList]
    ["ab".toList]
    [("Content-Length".toList, "5".toList)]
    ("5".toList) 5
    (by decide) (by decide) (by decide) (by decide) (by decide) (by decide)
  exact this.1

/-- Claim C10, amended theorem: on one and the same stream whose
`Content-Length` value fails integer parsing in both parsers, the
buffered parser fails the parse with the invalid-Content-Length error
while the streaming parser succeeds with an empty body — the policy is
resolved differently, not identically. -/
theorem content_length_policy_divergent (s m t v m2 t2 v2 : List Char)
    (segs1 segs2 ss1 ss2 : List (List Char))
    (hs hs2 : List (List Char × List Char)) (cl : List Char)
    (h1 : Internal.parseRequestLine (splitOnChar '\n' s) = .ok ((m, t, v), segs1))
    (h2 : Internal.parseHeadersCore segs1 [] = .ok (hs, segs2))
    (h3 : aget hs "Content-Length".toList = some cl)
    (h4 : goAtoi cl = none)
    (g1 : Streaming.parseRequestLine (splitOnChar '\n' s) = .ok ((m2, t2, v2), ss1))
    (g2 : Streaming.parseHeadersCore ss1 [] = .ok (hs2, ss2))
    (g3 : goAtoi ((aget hs2 "Content-Length".toList).getD []) = none) :
    Internal.Parse s = .fail .invalidContentLength
    ∧ Streaming.Parse s = .ok ⟨m2, t2, v2, hs2, [], []⟩ := by
  constructor
  · simp only [Internal.Parse, h1, h2, Internal.parseBody, h3, h4]
  · simp only [Streaming.Parse, g1, g2, g3]

/-- Witness for `content_length_policy_divergent` at a concrete
non-numeric `Content-Length`. -/
theorem content_length_policy_divergent_witness :
    Internal.Parse ("POST /x HTTP/1.1\r\nContent-Length: abc\r\n\r\n".toList)
      = .fail .invalidContentLength
    ∧ Streaming.Parse ("POST /x HTTP/1.1\r\nContent-Length: abc\r\n\r\n".toList)
      = .ok ⟨"POST".toList, "/x".toList, "HTTP/1.1".toList,
            [("Content-Length".toList, "abc".toList)], [], []⟩ := by
  exact content_length_policy_divergent
    ("POST /x HTTP/1.1\r\nContent-Length: abc\r\n\r\n".toList)
    ("POST".toList) ("/x".toList) ("HTTP/1.1".toList)
    ("POST".toList) ("/x".toList) ("HTTP/1.1".toList)
    ["Content-Length: abc\r".toList, "\r".toList, []]
    [[]]
    ["Content-Length: abc\r".toList, "\r".toList, []]
    [[]]
    [("Content-Length".toList, "abc".toList)]
    [("Content-Length".toList, "abc".toList)]
    ("abc".toList)
    (by decide) (by decide) (by decide) (by decide) (by decide) (by decide) (by decide)

/-! Helper lemmas about the Go string helpers. -/

theorem cutColon_eq_none {l : List Char} (h : ':' ∉ l) : cutColon l = none := by
  induction l with
  | nil => rfl
  | cons c t ih =>
    have hc : ¬ (c = ':') := fun hc => h (by simp [hc])
    have ht : ':' ∉ t := fun m => h (List.mem_cons_of_mem _ m)
    simp only [cutColon, if_neg hc, ih ht]

theorem mem_of_mem_trimSpace {c : Char} {l : List Char}
    (h : c ∈ trimSpace l) : c ∈ l := by
  unfold trimSpace at h
  have h1 : c ∈ List.rdropWhile isSpace l :=
    (List.dropWhile_sublist isSpace).subset h
  unfold List.rdropWhile at h1
  simp only [List.mem_reverse] at h1
  have h2 : c ∈ l.reverse := (List.dropWhile_sublist isSpace).subset h1
  simpa using h2

open Internal Streaming in
/-- Claim C8: in both parsers, a header line that the parser considers
non-empty (non-blank after trimming for the buffered parser, of
positive length after CRLF stripping for the streaming one) and that
contains no colon is skipped: running the header loop on a stream that
starts with such a line gives exactly the result of running it on the
stream without that line — the parse does not fail because of it,
later lines are processed the same way, and the accumulated header
mapping receives no entry from it.  The seg/rest decomposition is the
line structure of the stream: the malformed line is `seg` (plus its
newline), and at least one further newline-terminated line follows. -/
theorem header_line_without_colon_skipped :
    (∀ (seg r : List Char) (rs : List (List Char))
        (acc : List (List Char × List Char)),
        trimSpace (seg ++ ['\n']) ≠ [] → ':' ∉ seg →
        Internal.parseHeadersCore (seg :: r :: rs) acc
          = Internal.parseHeadersCore (r :: rs) acc)
    ∧ (∀ (seg r : List Char) (rs : List (List Char))
        (acc : List (List Char × List Char)),
        stripCR seg ≠ [] → ':' ∉ stripCR seg →
        Streaming.parseHeadersCore (seg :: r :: rs) acc
          = Streaming.parseHeadersCore (r :: rs) acc) := by
  constructor
  · intro seg r rs acc hne hcolon
    have hmem : ':' ∉ trimSpace (seg ++ ['\n']) := by
      intro hm
      have := mem_of_mem_trimSpace hm
      simp only [List.mem_append, List.mem_singleton] at this
      rcases this with h | h
      · exact hcolon h
      · exact absurd h (by decide)
    simp only [Internal.parseHeadersCore, if_neg hne, cutColon_eq_none hmem]
  · intro seg r rs acc hne hcolon
    simp only [Streaming.parseHeadersCore, if_neg hne, cutColon_eq_none hcolon]

/-- Witness for `header_line_without_colon_skipped`: the colon-free
line `Host localhost` is skipped by both header loops. -/
theorem header_line_without_colon_skipped_witness :
    Internal.parseHeadersCore ["Host localhost".toList, "\r".toList, []] []
      = Internal.parseHeadersCore ["\r".toList, []] []
    ∧ Streaming.parseHeadersCore ["Host localhost\r".toList, "\r".toList, []] []
      = Streaming.parseHeadersCore ["\r".toList, []] [] :=
  ⟨header_line_without_colon_skipped.1 ("Host localhost".toList) ("\r".toList)
      [[]] [] (by decide) (by decide),
   header_line_without_colon_skipped.2 ("Host localhost\r".toList) ("\r".toList)
      [[]] [] (by decide) (by decide)⟩

theorem splitOnChar_ne_nil (sep : Char) (l : List Char) :
    splitOnChar sep l ≠ [] := by
  cases l with
  | nil => simp [splitOnChar]
  | cons c t =>
    simp only [splitOnChar]
    split <;> simp

theorem splitOnChar_cons_of_ne (sep c : Char) (t : List Char) (h : ¬ c = sep) :
    splitOnChar sep (c :: t)
      = (c :: (splitOnChar sep t).headD []) :: (splitOnChar sep t).tail := by
  simp [splitOnChar, h]

theorem splitOnChar_cons_self (sep : Char) (t : List Char) :
    splitOnChar sep (sep :: t) = [] :: splitOnChar sep t := by
  simp [splitOnChar]

theorem splitOnChar_getLast_ne_nil (sep : Char) :
    ∀ (l : List Char), l ≠ [] → l.getLast? ≠ some sep →
      ∀ w, (splitOnChar sep l).getLast? = some w → w ≠ [] := by
  intro l
  induction l with
  | nil => intro h; exact absurd rfl h
  | cons c t ih =>
    intro _ hlast w hw
    cases t with
    | nil =>
      have hc : ¬ c = sep := fun h => hlast (by simp [h])
      simp [splitOnChar, hc] at hw
      simp [← hw]
    | cons d u =>
      have hl : (d :: u).getLast? ≠ some sep := by
        simpa using hlast
      have IH := ih (by simp) hl
      by_cases hc : c = sep
      · rw [hc, splitOnChar_cons_self sep (d :: u)] at hw
        have hne := splitOnChar_ne_nil sep (d :: u)
        rcases hs : splitOnChar sep (d :: u) with _ | ⟨s0, s'⟩
        · exact absurd hs hne
        · rw [hs] at hw
          simp only [List.getLast?_cons_cons] at hw
          exact IH w (by rw [hs]; exact hw)
      · rw [splitOnChar_cons_of_ne sep c (d :: u) hc] at hw
        have hne := splitOnChar_ne_nil sep (d :: u)
        rcases hs : splitOnChar sep (d :: u) with _ | ⟨s0, s'⟩
        · exact absurd hs hne
        · rw [hs] at hw
          cases s' with
          | nil =>
            simp at hw
            simp [← hw]
          | cons s1 s'' =>
            simp only [List.tail_cons, List.getLast?_cons_cons] at hw
            exact IH w (by rw [hs]; simpa using hw)

theorem trimSpace_head_not {l : List Char} (h : trimSpace l ≠ []) :
    isSpace ((trimSpace l).headD ' ') = false := by
  unfold trimSpace at *
  have hd := List.head_dropWhile_not isSpace (List.rdropWhile isSpace l) h
  rw [List.headD_eq_head?_getD, List.head?_eq_head h]
  simpa using hd

theorem trimSpace_getLast_not {l : List Char} (h : trimSpace l ≠ []) :
    ∀ w, (trimSpace l).getLast? = some w → isSpace w = false := by
  intro w hw
  unfold trimSpace at h hw
  -- the left trim keeps the last element of the right-trimmed list
  obtain ⟨pre, hpre⟩ := List.dropWhile_suffix
    (l := List.rdropWhile isSpace l) isSpace
  have hY : (List.rdropWhile isSpace l).getLast? = some w := by
    rw [← hpre, List.getLast?_append_of_ne_nil pre h]
    exact hw
  have hYne : List.rdropWhile isSpace l ≠ [] := by
    intro h0
    rw [h0] at hY
    simp at hY
  have hlast := List.rdropWhile_last_not (l := l) (p := isSpace) hYne
  have : (List.rdropWhile isSpace l).getLast hYne = w := by
    have := List.getLast?_eq_getLast (List.rdropWhile isSpace l) hYne
    rw [this] at hY
    exact Option.some_injective _ hY
  rw [this] at hlast
  simpa using hlast

open Internal in
/-- A successful run of the buffered request-line phase has a non-empty
method and version token: the line is whitespace-trimmed before the
split, so its first and last characters are not spaces, and those
characters begin the first token and end the last one. -/
theorem parseRequestLine_tokens {segs : List (List Char)}
    {m t v : List Char} {rest : List (List Char)}
    (h : Internal.parseRequestLine segs = .ok ((m, t, v), rest)) :
    m ≠ [] ∧ v ≠ [] := by
  match segs with
  | [] => simp [Internal.parseRequestLine] at h
  | [_] => simp [Internal.parseRequestLine] at h
  | seg :: r1 :: rs =>
    simp only [Internal.parseRequestLine] at h
    rcases hS : splitOnChar ' ' (trimSpace (seg ++ ['\n'])) with
      _ | ⟨a, _ | ⟨b, _ | ⟨c, _ | ⟨d, e⟩⟩⟩⟩ <;> rw [hS] at h <;> simp at h
    obtain ⟨⟨rfl, rfl, rfl⟩, rfl⟩ := h
    have hLne : trimSpace (seg ++ ['\n']) ≠ [] := by
      intro h0
      rw [h0] at hS
      simp [splitOnChar] at hS
    constructor
    · -- the head of the trimmed line starts the first token
      rcases hx : trimSpace (seg ++ ['\n']) with _ | ⟨c0, t0⟩
      · exact absurd hx hLne
      · have hc0 : isSpace c0 = false := by
          have hh := trimSpace_head_not (l := seg ++ ['\n']) hLne
          rw [hx] at hh
          simpa using hh
        have hcsp : ¬ c0 = ' ' := by
          intro h0
          rw [h0] at hc0
          simp [isSpace] at hc0
        rw [hx, splitOnChar_cons_of_ne ' ' c0 t0 hcsp] at hS
        have ha : a = c0 :: (splitOnChar ' ' t0).headD [] := by
          have hh := congrArg (fun x => x.headD ([] : List Char)) hS
          simpa using hh.symm
        simp [ha]
    · -- the last element of the split is the version token
      have hlast : (trimSpace (seg ++ ['\n'])).getLast? ≠ some ' ' := by
        intro h0
        have hh := trimSpace_getLast_not (l := seg ++ ['\n']) hLne ' ' h0
        simp [isSpace] at hh
      exact splitOnChar_getLast_ne_nil ' ' _ hLne hlast c (by rw [hS]; simp)

/-- Claim C7, amended theorem: every `Request` the buffered parser
returns has a non-empty method and a non-empty version (the target can
be empty, as the counterexample shows). -/
theorem parse_method_version_nonempty (s : List Char) (r : Internal.Request)
    (h : Internal.Parse s = .ok r) : r.Method ≠ [] ∧ r.Version ≠ [] := by
  unfold Internal.Parse at h
  split at h
  · simp at h
  · rename_i m t v segs1 hrl
    split at h
    · simp at h
    · rename_i hs segs2 hph
      split at h
      · simp at h
      · simp at h
      · rename_i b hpb
        injection h with h
        subst h
        simpa using parseRequestLine_tokens hrl

/-- Witness for `parse_method_version_nonempty` at a well-formed
request. -/
theorem parse_method_version_nonempty_witness :
    ("GET".toList : List Char) ≠ [] ∧ ("HTTP/1.1".toList : List Char) ≠ [] :=
  parse_method_version_nonempty ("GET / HTTP/1.1\r\n\r\n".toList)
    ⟨"GET".toList, "/".toList, "HTTP/1.1".toList, [], none⟩ (by decide)

theorem statusTextTable_vals_ne_nil {c : Int} {txt : List Char}
    (h : ByteResp.tget ByteResp.statusTextTable c = some txt) : txt ≠ [] := by
  simp only [ByteResp.statusTextTable, ByteResp.tget] at h
  split_ifs at h <;> injection h with h <;> subst h <;> decide

/-- Claim C9, amended theorem: for every status code, the byte-body
constructor takes the text from its table when present (those texts are
never empty) and otherwise falls back to the non-empty text
`Status Unknown`, so its status text is never the empty string; the
streaming constructor copies the table text when present but yields
the empty string for a code absent from its table. -/
theorem status_text_lookup_fallback (c : Int) (b : List Char) :
    (ByteResp.tget ByteResp.statusTextTable c = none →
        (ByteResp.New c b).StatusText = "Status Unknown".toList)
    ∧ (∀ txt, ByteResp.tget ByteResp.statusTextTable c = some txt →
        (ByteResp.New c b).StatusText = txt)
    ∧ (ByteResp.New c b).StatusText ≠ []
    ∧ (ByteResp.tget StreamResp.statusTextTable c = none →
        (StreamResp.New c b).StatusText = [])
    ∧ (∀ txt, ByteResp.tget StreamResp.statusTextTable c = some txt →
        (StreamResp.New c b).StatusText = txt) := by
  refine ⟨?_, ?_, ?_, ?_, ?_⟩
  · intro h
    simp [ByteResp.New, h]
  · intro txt h
    have hne := statusTextTable_vals_ne_nil h
    simp [ByteResp.New, h, hne]
  · rcases h : ByteResp.tget ByteResp.statusTextTable c with _ | txt
    · have he : (ByteResp.New c b).StatusText = "Status Unknown".toList := by
        simp [ByteResp.New, h]
      rw [he]
      decide
    · have hne := statusTextTable_vals_ne_nil h
      have he : (ByteResp.New c b).StatusText = txt := by
        simp [ByteResp.New, h, hne]
      rw [he]
      exact hne
  · intro h
    simp [StreamResp.New, h]
  · intro txt h
    simp [StreamResp.New, h]

/-- Witness for `status_text_lookup_fallback` at the untabulated
code 299. -/
theorem status_text_lookup_fallback_witness :
    (ByteResp.New 299 []).StatusText = "Status Unknown".toList
    ∧ (StreamResp.New 299 []).StatusText = [] :=
  ⟨(status_text_lookup_fallback 299 []).1 (by decide),
   (status_text_lookup_fallback 299 []).2.2.2.1 (by decide)⟩

theorem perm_of_pair {α : Type} {x y : α} {o : List α}
    (h : o.Perm [x, y]) : o = [x, y] ∨ o = [y, x] := by
  have hlen := h.length_eq
  cases o with
  | nil => simp at hlen
  | cons a o' =>
    cases o' with
    | nil => simp at hlen
    | cons b o'' =>
      cases o'' with
      | cons c o3 => simp at hlen
      | nil =>
        have ha : a ∈ [x, y] := h.mem_iff.mp (by simp)
        rcases (by simpa using ha : a = x ∨ a = y) with rfl | rfl
        · left
          have hb : [b].Perm [y] := h.cons_inv
          simp [List.singleton_perm_singleton.mp hb]
        · right
          have h2 : ([a, b] : List α).Perm [a, x] :=
            h.trans (List.Perm.swap a x [])
          have hb : [b].Perm [x] := h2.cons_inv
          simp [List.singleton_perm_singleton.mp hb]

theorem clct_ne : ("Content-Length".toList : List Char) ≠ "Content-Type".toList := by
  decide

theorem cl_key_line (r : List Char) :
    ("Content-Length".toList : List Char) ++ ':' :: ' ' :: r
      = "Content-Length: ".toList ++ r := rfl

theorem ct_key_line (r : List Char) :
    ("Content-Type".toList : List Char) ++ ':' :: ' ' :: r
      = "Content-Type: ".toList ++ r := rfl

/-- Claim C5, amended theorem: for any key enumeration the Go `range`
may produce over the headers of `New code body` (each key exactly
once, in either order), serialization emits exactly one status line,
then the two header lines — each exactly once, in one of the two
possible orders — then the blank separator, then the body bytes
verbatim.  The output is a function of the response and that
enumeration order only; the order itself is the sole run-to-run degree
of freedom. -/
theorem serialize_fixed_order_layout (c : Int) (b : List Char)
    (o : List (List Char))
    (h : o.Perm (akeys (ByteResp.New c b).Headers)) :
    ByteResp.writeWithOrder (ByteResp.New c b) o
        = ByteResp.statusLine (ByteResp.New c b)
          ++ "Content-Length: ".toList ++ ByteResp.goItoaNat b.length
          ++ "\r\n".toList ++ "Content-Type: text/plain\r\n".toList
          ++ "\r\n".toList ++ b
      ∨ ByteResp.writeWithOrder (ByteResp.New c b) o
        = ByteResp.statusLine (ByteResp.New c b)
          ++ "Content-Type: text/plain\r\n".toList
          ++ "Content-Length: ".toList ++ ByteResp.goItoaNat b.length
          ++ "\r\n".toList ++ "\r\n".toList ++ b := by
  have hkeys : akeys (ByteResp.New c b).Headers
      = ["Content-Length".toList, "Content-Type".toList] := by
    simp [ByteResp.New, akeys, aupd, clct_ne]
  rw [hkeys] at h
  rcases perm_of_pair h with rfl | rfl
  · left
    simp [ByteResp.writeWithOrder, ByteResp.headerLine, ByteResp.New,
          aget, aupd, clct_ne, cl_key_line, ct_key_line]
  · right
    simp [ByteResp.writeWithOrder, ByteResp.headerLine, ByteResp.New,
          aget, aupd, clct_ne, cl_key_line, ct_key_line]

/-- Witness for `serialize_fixed_order_layout` with the reversed
enumeration order. -/
theorem serialize_fixed_order_layout_witness :
    ByteResp.writeWithOrder (ByteResp.New 200 "ok".toList)
        ["Content-Type".toList, "Content-Length".toList]
        = ByteResp.statusLine (ByteResp.New 200 "ok".toList)
          ++ "Content-Length: ".toList ++ ByteResp.goItoaNat ("ok".toList).length
          ++ "\r\n".toList ++ "Content-Type: text/plain\r\n".toList
          ++ "\r\n".toList ++ "ok".toList
      ∨ ByteResp.writeWithOrder (ByteResp.New 200 "ok".toList)
        ["Content-Type".toList, "Content-Length".toList]
        = ByteResp.statusLine (ByteResp.New 200 "ok".toList)
          ++ "Content-Type: text/plain\r\n".toList
          ++ "Content-Length: ".toList ++ ByteResp.goItoaNat ("ok".toList).length
          ++ "\r\n".toList ++ "\r\n".toList ++ "ok".toList :=
  serialize_fixed_order_layout 200 ("ok".toList)
    ["Content-Type".toList, "Content-Length".toList] (by decide)

end RHttp
